import Mathlib

/-!
Verification development for the LabelNation label-printing program
(`labelnation.py`).  The Python source is shallowly embedded below:

* numeric values that the program keeps as Python floats are modelled as `ℚ`
  (the program only ever does exact field arithmetic on them);
* Python's `"%d" % f` formatting, which truncates a float toward zero, is
  modelled by `pyTrunc`;
* the character-level helpers (`dedelimit_string`, `normalize_string`,
  `str.split()`, `str.rstrip()`, `str.replace`) are modelled on `List Char`;
* `make_labels` (the grid-walking emission loop) is modelled as a state
  machine over `MLSt` emitting abstract output tokens `Tok`; the PostScript
  text written for a label block is modelled by the `Instr` list.

Input files are modelled as the list of their lines (without the trailing
newline each physical line carries); CSV input is modelled as the list of
already-split rows, each row a list of field strings, mirroring what
`csv.reader` hands to the loop.
-/

/-- Truncation toward zero of a rational, the behaviour of Python 2's
`"%d" % f` and `int(f)` on a float value. -/
def pyTrunc (q : ℚ) : Int :=
  if 0 ≤ q then ((q.num.toNat / q.den : Nat) : Int)
  else -(((-q).num.toNat / (-q).den : Nat) : Int)

/-- Python `str.isspace` characters relevant to `split`/`rstrip`. -/
def pyIsSpace (c : Char) : Bool :=
  c == ' ' || c == '\t' || c == '\x0a' || c == '\x0d' || c == '\x0b' || c == '\x0c'

/-- Python `line.rstrip()`: drop trailing whitespace. -/
def pyRstrip (l : List Char) : List Char :=
  (l.reverse.dropWhile pyIsSpace).reverse

/-- Python `str.replace (old, new)` for a one-character `old`. -/
def pyReplace (old : Char) (new : List Char) : List Char → List Char
  | [] => []
  | c :: rest => (if c = old then new else [c]) ++ pyReplace old new rest

/-- The escaping applied to every label text line in line input mode
(`make_labels`): backslash, then `(`, then `)` are backslash-escaped. -/
def escape_line (l : List Char) : List Char :=
  pyReplace ')' ['\\', ')'] (pyReplace '(' ['\\', '('] (pyReplace '\\' ['\\', '\\'] l))

/-- Per-character view of the same escaping: each of `\`, `(`, `)` becomes
a backslash followed by the character, everything else is unchanged. -/
def escChar (c : Char) : List Char :=
  if c = '\\' ∨ c = '(' ∨ c = ')' then ['\\', c] else [c]

/-- The map of `escChar` over a string. -/
def escAll : List Char → List Char
  | [] => []
  | c :: rest => escChar c ++ escAll rest

/-- Embeds `dedelimit_string` from the source: strips newline, quotes, tab, space. -/
def dedelimit_chars (l : List Char) : List Char :=
  l.filter (fun c => !(c == '\x0a' || c == '"' || c == '\x27' || c == '\t' || c == ' '))

/-- Embeds `normalize_string` from the source: dedelimit, lowercase, strip `-_.`. -/
def normalize_chars (l : List Char) : List Char :=
  ((dedelimit_chars l).map Char.toLower).filter (fun c => !(c == '-' || c == '_' || c == '.'))

/-- Helper for `pySplit`: accumulates the current token (reversed). -/
def pySplitAux : List Char → List Char → List (List Char)
  | [], acc => if acc.isEmpty then [] else [acc.reverse]
  | c :: rest, acc =>
      if pyIsSpace c then
        (if acc.isEmpty then pySplitAux rest [] else acc.reverse :: pySplitAux rest [])
      else pySplitAux rest (c :: acc)

/-- Python `str.split()` with no argument: whitespace-separated tokens,
no empty tokens. -/
def pySplit (l : List Char) : List (List Char) := pySplitAux l []

/-- Digit run to a number; `none` on a non-digit. -/
def digitsAux : List Char → Nat → Option Nat
  | [], acc => some acc
  | c :: rest, acc =>
      if '0' ≤ c ∧ c ≤ '9' then digitsAux rest (acc * 10 + (c.toNat - 48)) else none

/-- Partial model of Python's `float()` on a cleaned parameter value:
optional sign, integer part, optional fractional part.  This covers every
value the program itself produces (the `--show-parameters` dump prints
plain integers); other strings Python would accept are out of scope here. -/
def pyFloat? (l : List Char) : Option ℚ :=
  let sl : ℚ × List Char :=
    match l with
    | '-' :: rest => (-1, rest)
    | '+' :: rest => (1, rest)
    | _ => (1, l)
  let ip := sl.2.takeWhile (fun c => !(c == '.'))
  let rest := sl.2.drop ip.length
  match rest with
  | [] => if ip.isEmpty then none else (digitsAux ip 0).map (fun n => sl.1 * (n : ℚ))
  | _ :: frac =>
      if ip.isEmpty && frac.isEmpty then none
      else if frac.any (fun c => c == '.') then none
      else
        match digitsAux ip 0, digitsAux frac 0 with
        | some n, some f =>
            some (sl.1 * ((n : ℚ) + (f : ℚ) / ((10 : ℚ) ^ frac.length)))
        | _, _ => none

/-! ## SheetSpec -/

/-- The library default `SheetSpec.default_first_label`. -/
def default_first_label : ℚ := 1

/-- The library default `SheetSpec.default_font_name`. -/
def default_font_name : String := "Times-Roman"

/-- The library default `SheetSpec.default_font_size`. -/
def default_font_size : ℚ := 12

/-- The `SheetSpec` record: the eight geometry fields start out `None`
(modelled as `none`); `first_label`, `font_name`, `font_size` start at the
library defaults. -/
structure SheetSpec where
  left_margin : Option ℚ := none
  bottom_margin : Option ℚ := none
  label_width : Option ℚ := none
  label_height : Option ℚ := none
  horiz_space : Option ℚ := none
  vert_space : Option ℚ := none
  horiz_num_labels : Option ℚ := none
  vert_num_labels : Option ℚ := none
  first_label : ℚ := default_first_label
  font_name : String := default_font_name
  font_size : ℚ := default_font_size
deriving DecidableEq

/-- Embeds `SheetSpec.absorb`: take the other spec's value for every field of
`self` still at its unset sentinel (`None` for the eight geometry fields,
the library default for the remaining three), keep own values otherwise. -/
def SheetSpec.absorb (s other : SheetSpec) : SheetSpec where
  left_margin := if s.left_margin = none then other.left_margin else s.left_margin
  bottom_margin := if s.bottom_margin = none then other.bottom_margin else s.bottom_margin
  label_width := if s.label_width = none then other.label_width else s.label_width
  label_height := if s.label_height = none then other.label_height else s.label_height
  horiz_space := if s.horiz_space = none then other.horiz_space else s.horiz_space
  vert_space := if s.vert_space = none then other.vert_space else s.vert_space
  horiz_num_labels := if s.horiz_num_labels = none then other.horiz_num_labels else s.horiz_num_labels
  vert_num_labels := if s.vert_num_labels = none then other.vert_num_labels else s.vert_num_labels
  first_label := if s.first_label = default_first_label then other.first_label else s.first_label
  font_name := if s.font_name = default_font_name then other.font_name else s.font_name
  font_size := if s.font_size = default_font_size then other.font_size else s.font_size

/-- The built-in avery5167-family sheet spec ("Small address labels, 80 per
page") from `sheetspec_for_type`. -/
def avery5167 : SheetSpec :=
  { left_margin := some 14, bottom_margin := some 17,
    label_width := some 126, label_height := some 36,
    horiz_space := some (45/2), vert_space := some 0,
    horiz_num_labels := some 4, vert_num_labels := some 20,
    font_name := "Times-Roman", font_size := 7 }

/-- Decimal digits of a natural number. -/
def natChars (n : Nat) : List Char := Nat.toDigits 10 n

/-- The characters Python prints for `"%d" % i`. -/
def intChars (i : Int) : List Char :=
  if i < 0 then '-' :: natChars i.natAbs else natChars i.toNat

/-- A numeric field as dumped by `SheetSpec.__str__`, i.e. `"%d"`-formatted:
truncated toward zero. -/
def dumpNum (q : ℚ) : List Char := intChars (pyTrunc q)

/-- Embeds `SheetSpec.__str__`, the `--show-parameters` dump, as a list of output
lines (each physical line's trailing newline is left implicit).  Every
numeric field goes through `"%d"`; `first_label` is not dumped at all. -/
def sheetspec_dump (s : SheetSpec) : List (List Char) :=
  [ "LeftMargin:      ".data ++ dumpNum (s.left_margin.getD 0),
    "BottomMargin:    ".data ++ dumpNum (s.bottom_margin.getD 0),
    "LabelWidth:      ".data ++ dumpNum (s.label_width.getD 0),
    "LabelHeight:     ".data ++ dumpNum (s.label_height.getD 0),
    "HorizSpace:      ".data ++ dumpNum (s.horiz_space.getD 0),
    "VertSpace:       ".data ++ dumpNum (s.vert_space.getD 0),
    "HorizNumLabels:  ".data ++ dumpNum (s.horiz_num_labels.getD 0),
    "VertNumLabels:   ".data ++ dumpNum (s.vert_num_labels.getD 0),
    "FontName:        ".data ++ s.font_name.data,
    "FontSize:        ".data ++ dumpNum s.font_size ]

/-- The comment/blank test of `parse_param_file`:
`re.match(r"\s*#|^\s*$", line)`. -/
def isCommentOrBlank (l : List Char) : Bool :=
  match l.dropWhile (fun c => pyIsSpace c) with
  | [] => true
  | c :: _ => c == '#'

/-- One iteration of the `parse_param_file` loop on a single line.
`Except.error ()` models an unhandled Python exception (the `ValueError`
from `key, val = line.split()` when the line does not have exactly two
tokens, or a `float()` failure); an unknown key is reported and skipped. -/
def apply_param_line (s : SheetSpec) (l : List Char) : Except Unit SheetSpec :=
  if isCommentOrBlank l then Except.ok s
  else
    match pySplit l with
    | [k0, v0] =>
        let k1 := if k0.getLast? = some ':' then k0.dropLast else k0
        let k := normalize_chars k1
        let v := dedelimit_chars v0
        if k = "leftmargin".data then
          match pyFloat? (dedelimit_chars v) with
          | some q => Except.ok { s with left_margin := some q }
          | none => Except.error ()
        else if k = "bottommargin".data then
          match pyFloat? (dedelimit_chars v) with
          | some q => Except.ok { s with bottom_margin := some q }
          | none => Except.error ()
        else if k = "labelwidth".data then
          match pyFloat? (dedelimit_chars v) with
          | some q => Except.ok { s with label_width := some q }
          | none => Except.error ()
        else if k = "labelheight".data then
          match pyFloat? (dedelimit_chars v) with
          | some q => Except.ok { s with label_height := some q }
          | none => Except.error ()
        else if k = "horizspace".data then
          match pyFloat? (dedelimit_chars v) with
          | some q => Except.ok { s with horiz_space := some q }
          | none => Except.error ()
        else if k = "vertspace".data then
          match pyFloat? (dedelimit_chars v) with
          | some q => Except.ok { s with vert_space := some q }
          | none => Except.error ()
        else if k = "horiznumlabels".data then
          match pyFloat? (dedelimit_chars v) with
          | some q => Except.ok { s with horiz_num_labels := some q }
          | none => Except.error ()
        else if k = "vertnumlabels".data then
          match pyFloat? (dedelimit_chars v) with
          | some q => Except.ok { s with vert_num_labels := some q }
          | none => Except.error ()
        else if k = "fontname".data then
          Except.ok { s with font_name := String.mk v }
        else if k = "fontsize".data then
          match pyFloat? v with
          | some q => Except.ok { s with font_size := q }
          | none => Except.error ()
        else Except.ok s
    | _ => Except.error ()

/-- Embeds `parse_param_file` over the file's lines, starting from a default
`SheetSpec()`. -/
def parse_param_lines (ls : List (List Char)) : Except Unit SheetSpec :=
  ls.foldlM (fun s l => apply_param_line s l) {}

/-! ## The make_labels emission loop -/

/-- A single PostScript drawing instruction inside a label block, as built
into `code_accum` by `make_labels` for line/CSV input.  `moveto` keeps the
exact rational coordinates that `"%f"` formats; `setfont` carries the
`"%d"`-truncated integer font size that is actually written. -/
inductive Instr where
  | newpath : Instr
  | setfont : String → Int → Instr
  | moveto : ℚ → ℚ → Instr
  | showText : List Char → Instr
  | stroke : Instr
deriving DecidableEq

/-- One item written to the output document by the emission loop:
a page header (`%%Page` + the margin translation), a positioned label
block (grid position, the two `"%d"`-truncated translation amounts, and
the drawing instructions), or a `showpage` page terminator. -/
inductive Tok where
  | pageHeader : Nat → ℚ → ℚ → Tok
  | block : Nat → Nat → Int → Int → List Instr → Tok
  | showpage : Tok
deriving DecidableEq

/-- The configuration `make_labels` works with: the resolved sheet
geometry/typography plus the delimiter, leading-spaces and min-label-lines
options.  Grid dimensions and `first_label` are integral by the time
`make_labels` runs (the program validates them), so they are `Nat` here. -/
structure MLCfg where
  fontName : String
  fontSize : ℚ
  leftMargin : ℚ
  bottomMargin : ℚ
  labelWidth : ℚ
  labelHeight : ℚ
  horizSpace : ℚ
  vertSpace : ℚ
  horizNum : Nat
  vertNum : Nat
  firstLabel : Nat
  delimiter : Option (List Char)
  leadingSpaces : Nat
  minLabelLines : Nat
deriving DecidableEq

/-- Loop state of `make_labels`: grid position, page number, the
`start_new_page` flag, the accumulated `label_lines`, and the output
written so far. -/
structure MLSt where
  x : Nat
  y : Nat
  page : Nat
  startNewPage : Bool
  labelLines : List (List Char)
  out : List Tok
deriving DecidableEq

/-- The constant `inner_margin = 1` in `make_labels`. -/
def inner_margin : ℚ := 1

/-- The font auto-scale formula of `make_labels`:
`font_size / (1.0 + ((num_lines - 4.0) / 10.0))`. -/
def effective_fontsize (fs : ℚ) (n : Nat) : ℚ :=
  fs / (1 + (((n : ℚ)) - 4) / 10)

/-- The left padding `" " * leading_spaces + line`. -/
def leadPad (n : Nat) (l : List Char) : List Char := List.replicate n ' ' ++ l

/-- Pad `label_lines` with blank lines up to `min_label_lines`. -/
def padLines (m : Nat) (ls : List (List Char)) : List (List Char) :=
  ls ++ List.replicate (m - ls.length) []

/-- The `code_accum` contents built for one line/CSV label with effective
line count `numLines` from the (already padded and space-prefixed) lines
`ls`: newpath, the scaled font selection, one moveto/show pair per line,
stroke. -/
def renderCode (cfg : MLCfg) (numLines : Nat) (ls : List (List Char)) : List Instr :=
  Instr.newpath ::
    Instr.setfont cfg.fontName (pyTrunc (effective_fontsize cfg.fontSize numLines)) ::
    (((List.range numLines).map (fun (i : Nat) =>
        [Instr.moveto (inner_margin + 2)
           (cfg.labelHeight / ((numLines : ℚ) + 1) * (numLines : ℚ)
              - (i : ℚ) * (cfg.labelHeight / ((numLines : ℚ) + 2))),
         Instr.showText (List.getD ls i [])])).flatten
      ++ [Instr.stroke])

/-- The drawing code one placement produces from raw `label_lines` `ls`:
the effective line count is `max ls.length min_label_lines`, and the lines
are blank-padded then left-padded with the leading spaces. -/
def label_code (cfg : MLCfg) (ls : List (List Char)) : List Instr :=
  renderCode cfg (max ls.length cfg.minLabelLines)
    ((padLines cfg.minLabelLines ls).map (leadPad cfg.leadingSpaces))

/-- The amount `this_x_step = x * (label_width + horiz_space)`, as written by
`"%d"`: truncated toward zero. -/
def x_step (cfg : MLCfg) (x : Nat) : Int :=
  pyTrunc ((x : ℚ) * (cfg.labelWidth + cfg.horizSpace))

/-- The amount `this_y_step = y * (label_height + vert_space)`, as written by
`"%d"`: truncated toward zero. -/
def y_step (cfg : MLCfg) (y : Nat) : Int :=
  pyTrunc ((y : ℚ) * (cfg.labelHeight + cfg.vertSpace))

/-- The emission-and-advance tail of one placement in `make_labels`
(source lines 1028-1057): write a page header if `start_new_page`, write
the translated and clipped block, then increment `y`, wrapping `y` into
`x` and `x` into a new page (emitting `showpage` and re-arming
`start_new_page` on a page wrap). -/
def emit_advance (cfg : MLCfg) (code : List Instr) (st : MLSt) : MLSt :=
  let out2 := (st.out ++
      (if st.startNewPage then [Tok.pageHeader st.page cfg.leftMargin cfg.bottomMargin] else []))
    ++ [Tok.block st.x st.y (x_step cfg st.x) (y_step cfg st.y) code]
  let p : Nat × Nat := if cfg.vertNum ≤ st.y + 1 then (st.x + 1, 0) else (st.x, st.y + 1)
  if cfg.horizNum ≤ p.1 then
    { x := 0, y := p.2, page := st.page + 1, startNewPage := true,
      labelLines := st.labelLines, out := out2 ++ [Tok.showpage] }
  else
    { x := p.1, y := p.2, page := st.page, startNewPage := false,
      labelLines := st.labelLines, out := out2 }

/-- One full placement in line input mode: pad/prefix `label_lines`
(the assignment persists in the state, exactly as in the source), build the
drawing code, emit and advance, and reset `label_lines` only when a
delimiter is configured. -/
def place_line (cfg : MLCfg) (st : MLSt) : MLSt :=
  let st1 := emit_advance cfg (label_code cfg st.labelLines)
      { st with labelLines := (padLines cfg.minLabelLines st.labelLines).map (leadPad cfg.leadingSpaces) }
  if cfg.delimiter.isSome then { st1 with labelLines := [] } else st1

/-- One full placement in CSV input mode: `label_lines` is the raw row
(the fields are never escaped), then the same padding/emission;
`label_lines` is always reset afterwards. -/
def place_csv (cfg : MLCfg) (row : List (List Char)) (st : MLSt) : MLSt :=
  let st1 := emit_advance cfg (label_code cfg row)
      { st with labelLines := (padLines cfg.minLabelLines row).map (leadPad cfg.leadingSpaces) }
  { st1 with labelLines := [] }

/-- The input-consuming phase of the `make_labels` loop in line mode:
each line is `rstrip`ped; a delimiter line triggers a placement, any other
line is escaped and appended to `label_lines`. -/
def read_phase (cfg : MLCfg) : List (List Char) → MLSt → MLSt
  | [], st => st
  | l :: rest, st =>
      if cfg.delimiter = some (pyRstrip l) then read_phase cfg rest (place_line cfg st)
      else read_phase cfg rest { st with labelLines := st.labelLines ++ [escape_line (pyRstrip l)] }

/-- The `iterate_over_single_page` phase: keep placing the same label,
stopping as soon as the recomputed flag condition fails — i.e. when the
position is out of range or has wrapped back to `(0,0)`.  The fuel is an
upper bound on the number of iterations; `horiz_num·vert_num` always
suffices from a valid position. -/
def repl_go (cfg : MLCfg) : Nat → MLSt → MLSt
  | 0, st => st
  | fuel + 1, st =>
      let st1 := place_line cfg st
      if cfg.vertNum ≤ st1.y ∨ cfg.horizNum ≤ st1.x ∨ (st1.x = 0 ∧ st1.y = 0) then st1
      else repl_go cfg fuel st1

/-- Initial loop state: position derived from `first_label`
(`x = (first_label-1) / vert_num`, `y = (first_label-1) mod vert_num`),
page 1, `start_new_page` set. -/
def init_state (cfg : MLCfg) : MLSt :=
  { x := (cfg.firstLabel - 1) / cfg.vertNum, y := (cfg.firstLabel - 1) % cfg.vertNum,
    page := 1, startNewPage := true, labelLines := [], out := [] }

/-- The epilogue of `make_labels`: a final `showpage` unless the position
is exactly `(0,0)`. -/
def finish (st : MLSt) : MLSt :=
  if st.x = 0 ∧ st.y = 0 then st else { st with out := st.out ++ [Tok.showpage] }

/-- Embeds `make_labels` in line input mode on the given input lines.  With a
nonempty input, after the reading phase the single-page replication phase
runs exactly when no delimiter is configured and the position is in range
(the end-of-loop flag computation); with an empty input the loop body
never runs.  Finally the epilogue `showpage` check. -/
def line_run (cfg : MLCfg) (input : List (List Char)) : MLSt :=
  match input with
  | [] => finish (init_state cfg)
  | _ =>
      let st1 := read_phase cfg input (init_state cfg)
      finish (if cfg.delimiter = none ∧ st1.y < cfg.vertNum ∧ st1.x < cfg.horizNum
              then repl_go cfg (cfg.horizNum * cfg.vertNum) st1 else st1)

/-- Embeds `make_labels` in CSV input mode on the given parsed rows: one
placement per row, stopping early at an empty row (a falsy value ends the
`while line` loop), then the epilogue. -/
def csv_run (cfg : MLCfg) (rows : List (List (List Char))) : MLSt :=
  finish ((rows.takeWhile (fun r => !r.isEmpty)).foldl (fun st row => place_csv cfg row st) (init_state cfg))

/-- Runs `k` placements of the bare emission/advance step from the initial
state (the Grid Walker in isolation, with a fixed drawing code). -/
def walker_iter (cfg : MLCfg) (code : List Instr) : Nat → MLSt
  | 0 => init_state cfg
  | k + 1 => emit_advance cfg code (walker_iter cfg code k)

/-- A run that places exactly `count` labels and then ends the stream. -/
def walker_run (cfg : MLCfg) (code : List Instr) (count : Nat) : MLSt :=
  finish (walker_iter cfg code count)

/-- Recognizes a page-header token. -/
def isHeaderTok : Tok → Bool
  | Tok.pageHeader _ _ _ => true
  | _ => false

/-- Recognizes a `showpage` token. -/
def isShowTok : Tok → Bool
  | Tok.showpage => true
  | _ => false

/-- Recognizes a label-block token. -/
def isBlockTok : Tok → Bool
  | Tok.block _ _ _ _ _ => true
  | _ => false

/-- Number of page headers in the output. -/
def countHeaders (out : List Tok) : Nat := out.countP isHeaderTok

/-- Number of `showpage` terminators in the output. -/
def countShows (out : List Tok) : Nat := out.countP isShowTok

/-- Number of label blocks in the output. -/
def countBlocks (out : List Tok) : Nat := out.countP isBlockTok

/-- The drawing codes of the label blocks, in output order. -/
def blockCodes (out : List Tok) : List (List Instr) :=
  out.filterMap (fun t => match t with | Tok.block _ _ _ _ c => some c | _ => none)

/-- The text arguments of the show instructions of a drawing code. -/
def showTexts (c : List Instr) : List (List Char) :=
  c.filterMap (fun i => match i with | Instr.showText s => some s | _ => none)

/-- The literal characters of the emitted show instruction
`"(" + line + ") show\n"` for a label line. -/
def showInstrChars (s : List Char) : List Char :=
  '(' :: s ++ [')', ' ', 's', 'h', 'o', 'w', '\x0a']

/-- PostScript string/paren scanner, one character at a time: `esc` is
set when the previous character was an escaping backslash; `d` is the
paren depth.  `none` on a dangling escape or an unmatched closing paren. -/
def psScanF : List Char → Bool → Nat → Option Nat
  | [], esc, d => if esc then none else some d
  | _ :: rest, true, d => psScanF rest false d
  | c :: rest, false, d =>
      if c = '\\' then psScanF rest true d
      else if c = '(' then psScanF rest false (d + 1)
      else if c = ')' then
        match d with
        | 0 => none
        | d2 + 1 => psScanF rest false d2
      else psScanF rest false d

/-- Scanner entry point. -/
def psScan (s : List Char) (d : Nat) : Option Nat := psScanF s false d

/-- A character sequence is balanced for the PostScript tokenizer. -/
def psBalanced (s : List Char) : Bool := psScan s 0 == some 0

/-! ## The main() configuration gate -/

/-- Python's `int(q) == q` test on a float, used by `main` to validate
`first_label`. -/
def is_int_q (q : ℚ) : Bool := ((pyTrunc q : ℚ)) == q

/-- The configuration validation of `main` after merging (source lines
1276-1322): any missing geometry field, or a non-integer, too-low or
too-high `first_label`, sets `exit_with_admonishment`.  The `first_label`
upper-bound check is an `elif` of the lower-bound check. -/
def main_config_error (s : SheetSpec) : Bool :=
  s.left_margin.isNone || s.bottom_margin.isNone ||
  s.label_width.isNone || s.label_height.isNone ||
  s.horiz_space.isNone || s.vert_space.isNone ||
  s.horiz_num_labels.isNone || s.vert_num_labels.isNone ||
  !(is_int_q s.first_label) ||
  decide (s.first_label < 1) ||
  (!(decide (s.first_label < 1)) &&
    decide (s.horiz_num_labels.getD 0 * s.vert_num_labels.getD 0 < s.first_label))

/-- The resolved spec handed to `make_labels` once validation passed. -/
def toMLCfg (s : SheetSpec) (delim : Option (List Char)) (leading minL : Nat) : MLCfg :=
  { fontName := s.font_name, fontSize := s.font_size,
    leftMargin := s.left_margin.getD 0, bottomMargin := s.bottom_margin.getD 0,
    labelWidth := s.label_width.getD 0, labelHeight := s.label_height.getD 0,
    horizSpace := s.horiz_space.getD 0, vertSpace := s.vert_space.getD 0,
    horizNum := (s.horiz_num_labels.getD 0).num.toNat,
    vertNum := (s.vert_num_labels.getD 0).num.toNat,
    firstLabel := s.first_label.num.toNat,
    delimiter := delim, leadingSpaces := leading, minLabelLines := minL }

/-- The label-making path of `main` (without `--show-parameters`): if the
merged configuration fails validation the process exits with status 1
before a single output byte is written (`Except.error 1`), otherwise
`make_labels` runs and produces the output document. -/
def main_run (s : SheetSpec) (delim : Option (List Char)) (leading minL : Nat)
    (input : List (List Char)) : Except Nat (List Tok) :=
  if main_config_error s then Except.error 1
  else Except.ok ((line_run (toMLCfg s delim leading minL) input).out)

/-- The default-constructed `SheetSpec()`. -/
def default_sheetspec : SheetSpec := {}

/-! ## Arithmetic helpers -/

/-- Incrementing a number steps its quotient/remainder by a divisor in the
usual carry pattern. -/
theorem succ_mod_div (m d : Nat) (hd : 1 ≤ d) :
    ((m + 1) % d = if m % d + 1 = d then 0 else m % d + 1) ∧
    ((m + 1) / d = if m % d + 1 = d then m / d + 1 else m / d) := by
  have h0 : m % d + d * (m / d) = m := Nat.mod_add_div m d
  have hlt : m % d < d := Nat.mod_lt _ (by omega)
  by_cases hc : m % d + 1 = d
  · have h1 : m + 1 = d * (m / d + 1) := by
      rw [Nat.mul_add, Nat.mul_one]; omega
    rw [if_pos hc, if_pos hc]
    constructor
    · rw [h1, Nat.mul_mod_right]
    · rw [h1, Nat.mul_div_cancel_left _ (by omega : 0 < d)]
  · have hlt2 : m % d + 1 < d := by omega
    have h1 : m + 1 = (m % d + 1) + d * (m / d) := by omega
    rw [if_neg hc, if_neg hc, h1, Nat.add_mul_mod_self_left,
      Nat.add_mul_div_left _ _ (by omega : 0 < d), Nat.mod_eq_of_lt hlt2,
      Nat.div_eq_of_lt hlt2, Nat.zero_add]
    exact ⟨rfl, rfl⟩

/-- Quotient and remainder of a grid index `x*v + y` with `y < v`. -/
theorem idx_div_mod (x y v : Nat) (hy : y < v) :
    (x * v + y) / v = x ∧ (x * v + y) % v = y := by
  have hv : 0 < v := by omega
  have h1 : x * v + y = y + v * x := by ring
  rw [h1, Nat.add_mul_div_left _ _ hv, Nat.add_mul_mod_self_left,
    Nat.div_eq_of_lt hy, Nat.mod_eq_of_lt hy, Nat.zero_add]
  exact ⟨rfl, rfl⟩

/-- The last cell of a `h × v` grid has linear index `h*v - 1`. -/
theorem grid_last_idx (h v : Nat) (hh : 1 ≤ h) (hv : 1 ≤ v) :
    v * (h - 1) + (v - 1) + 1 = h * v := by
  obtain ⟨h0, rfl⟩ : ∃ h0, h = h0 + 1 := ⟨h - 1, by omega⟩
  have e1 : h0 + 1 - 1 = h0 := by omega
  have e2 : (h0 + 1) * v = v * h0 + v := by ring
  rw [e1, e2]
  omega

/-- A quotient by `v` is below `h` exactly when the value is below `h*v`. -/
theorem div_lt_of_lt_mul (r h v : Nat) (hv : 1 ≤ v) (hr : r < h * v) :
    r / v < h := by
  exact (Nat.div_lt_iff_lt_mul (by omega : 0 < v)).mpr (by omega : r < h * v)

/-- Stepping a quotient back by one: `m / N` in terms of `(m-1) / N`. -/
theorem div_pred (m N : Nat) (hm : 1 ≤ m) (hN : 1 ≤ N) :
    m / N = (m - 1) / N + (if m % N = 0 then 1 else 0) := by
  obtain ⟨e1, e2⟩ := succ_mod_div (m - 1) N hN
  rw [show m - 1 + 1 = m from by omega] at e1 e2
  by_cases hc : (m - 1) % N + 1 = N
  · rw [if_pos hc] at e1 e2
    rw [if_pos e1, e2]
  · rw [if_neg hc] at e1 e2
    have hne : m % N ≠ 0 := by omega
    rw [if_neg hne, e2, Nat.add_zero]

/-- Reindexing the grid position formulas: position after `k` steps from
the origin, expressed through `k mod (h*v)`, matches the column-major
closed form. -/
theorem mod_grid_div (k h v : Nat) (hh : 1 ≤ h) (hv : 1 ≤ v) :
    (k % (h * v)) / v = (k / v) % h ∧ (k % (h * v)) % v = k % v := by
  have hN : 0 < h * v := Nat.mul_pos (by omega) (by omega)
  have e : h * v * (k / (h * v)) + k % (h * v) = k := Nat.div_add_mod k (h * v)
  set q := k / (h * v) with hq
  set r := k % (h * v) with hr
  have hrlt : r < h * v := hr ▸ Nat.mod_lt _ hN
  have hk : k = r + v * (h * q) := by
    have e4 : v * (h * q) = h * v * q := by ring
    omega
  have hdl : r / v < h := div_lt_of_lt_mul _ h v hv hrlt
  constructor
  · rw [hk, Nat.add_mul_div_left _ _ (by omega : 0 < v), Nat.add_mul_mod_self_left,
      Nat.mod_eq_of_lt hdl]
  · rw [hk, Nat.add_mul_mod_self_left]

/-- One emission/advance step from linear grid index `r` when `r` is the
last cell of the page: the position wraps to `(0,0)`, the page number
increments, `showpage` is written and `start_new_page` re-arms. -/
theorem emit_advance_wrap (cfg : MLCfg) (code : List Instr) (st : MLSt) (r : Nat)
    (hh : 1 ≤ cfg.horizNum) (hv : 1 ≤ cfg.vertNum)
    (hr : r + 1 = cfg.horizNum * cfg.vertNum)
    (hx : st.x = r / cfg.vertNum) (hy : st.y = r % cfg.vertNum) :
    emit_advance cfg code st =
      { x := 0, y := 0, page := st.page + 1, startNewPage := true,
        labelLines := st.labelLines,
        out := st.out ++
          ((if st.startNewPage then [Tok.pageHeader st.page cfg.leftMargin cfg.bottomMargin] else []) ++
           [Tok.block st.x st.y (x_step cfg st.x) (y_step cfg st.y) code, Tok.showpage]) } := by
  have key : cfg.vertNum * (cfg.horizNum - 1) + (cfg.vertNum - 1) + 1
      = cfg.horizNum * cfg.vertNum := grid_last_idx _ _ hh hv
  have hrr : r = cfg.vertNum * (cfg.horizNum - 1) + (cfg.vertNum - 1) := by omega
  have hmod : r % cfg.vertNum = cfg.vertNum - 1 := by
    rw [hrr, Nat.mul_add_mod, Nat.mod_eq_of_lt (by omega)]
  have hdiv : r / cfg.vertNum = cfg.horizNum - 1 := by
    rw [hrr, Nat.mul_add_div (by omega : 0 < cfg.vertNum),
      Nat.div_eq_of_lt (by omega), Nat.add_zero]
  have hy2 : cfg.vertNum ≤ st.y + 1 := by omega
  have hx2 : cfg.horizNum ≤ st.x + 1 := by omega
  simp only [emit_advance, if_pos hy2, if_pos hx2]
  simp [List.append_assoc]

/-- One emission/advance step from linear grid index `r` when `r` is not
the last cell of the page: the position moves to index `r+1`, the page
number is unchanged, no `showpage` is written and `start_new_page` is
cleared. -/
theorem emit_advance_nowrap (cfg : MLCfg) (code : List Instr) (st : MLSt) (r : Nat)
    (hh : 1 ≤ cfg.horizNum) (hv : 1 ≤ cfg.vertNum)
    (hr : r + 1 < cfg.horizNum * cfg.vertNum)
    (hx : st.x = r / cfg.vertNum) (hy : st.y = r % cfg.vertNum) :
    emit_advance cfg code st =
      { x := (r + 1) / cfg.vertNum, y := (r + 1) % cfg.vertNum, page := st.page,
        startNewPage := false, labelLines := st.labelLines,
        out := st.out ++
          ((if st.startNewPage then [Tok.pageHeader st.page cfg.leftMargin cfg.bottomMargin] else []) ++
           [Tok.block st.x st.y (x_step cfg st.x) (y_step cfg st.y) code]) } := by
  obtain ⟨em, ed⟩ := succ_mod_div r cfg.vertNum hv
  have hmlt : r % cfg.vertNum < cfg.vertNum := Nat.mod_lt _ (by omega)
  have hdl : r / cfg.vertNum < cfg.horizNum := div_lt_of_lt_mul _ _ _ hv (by omega)
  by_cases hc : r % cfg.vertNum + 1 = cfg.vertNum
  · rw [if_pos hc] at em ed
    have hy2 : cfg.vertNum ≤ st.y + 1 := by omega
    have hx2 : ¬ cfg.horizNum ≤ st.x + 1 := by
      intro hle
      have hxe : r / cfg.vertNum = cfg.horizNum - 1 := by omega
      have e := Nat.div_add_mod r cfg.vertNum
      rw [hxe] at e
      have key : cfg.vertNum * (cfg.horizNum - 1) + (cfg.vertNum - 1) + 1
          = cfg.horizNum * cfg.vertNum := grid_last_idx _ _ hh hv
      omega
    simp only [emit_advance, if_pos hy2, if_neg hx2]
    rw [em, ed]
    simp [hx, List.append_assoc]
  · rw [if_neg hc] at em ed
    have hy2 : ¬ cfg.vertNum ≤ st.y + 1 := by omega
    have hx2 : ¬ cfg.horizNum ≤ st.x := by omega
    simp only [emit_advance, if_neg hy2, if_neg hx2]
    rw [em, ed]
    simp [hx, hy, List.append_assoc]

/-- Header counting distributes over append. -/
theorem countHeaders_append (a b : List Tok) :
    countHeaders (a ++ b) = countHeaders a + countHeaders b := by
  simp [countHeaders, List.countP_append]

/-- Terminator counting distributes over append. -/
theorem countShows_append (a b : List Tok) :
    countShows (a ++ b) = countShows a + countShows b := by
  simp [countShows, List.countP_append]

/-- Block counting distributes over append. -/
theorem countBlocks_append (a b : List Tok) :
    countBlocks (a ++ b) = countBlocks a + countBlocks b := by
  simp [countBlocks, List.countP_append]


/-- Closed-form invariant of the bare walker after `k ≥ 1` placements for
any valid `first_label`: writing `m = (first_label - 1) + k` for the
absolute linear index and `N = horiz_num · vert_num`, the position is the
column-major decomposition of `m mod N`, the page is `m / N + 1`,
`start_new_page` is armed exactly on a fresh page, `m / N` pages have been
terminated and `(m-1)/N + 1` pages have been opened. -/
theorem walker_inv (cfg : MLCfg) (code : List Instr)
    (hh : 1 ≤ cfg.horizNum) (hv : 1 ≤ cfg.vertNum)
    (hfl1 : 1 ≤ cfg.firstLabel) (hfl2 : cfg.firstLabel ≤ cfg.horizNum * cfg.vertNum) :
    ∀ k, 1 ≤ k →
      (walker_iter cfg code k).x
          = (((cfg.firstLabel - 1) + k) % (cfg.horizNum * cfg.vertNum)) / cfg.vertNum ∧
      (walker_iter cfg code k).y
          = (((cfg.firstLabel - 1) + k) % (cfg.horizNum * cfg.vertNum)) % cfg.vertNum ∧
      (walker_iter cfg code k).page
          = ((cfg.firstLabel - 1) + k) / (cfg.horizNum * cfg.vertNum) + 1 ∧
      (walker_iter cfg code k).startNewPage
          = decide ((((cfg.firstLabel - 1) + k) % (cfg.horizNum * cfg.vertNum)) = 0) ∧
      countHeaders (walker_iter cfg code k).out
          = ((cfg.firstLabel - 1) + k - 1) / (cfg.horizNum * cfg.vertNum) + 1 ∧
      countShows (walker_iter cfg code k).out
          = ((cfg.firstLabel - 1) + k) / (cfg.horizNum * cfg.vertNum) ∧
      countBlocks (walker_iter cfg code k).out = k := by
  have hN : 0 < cfg.horizNum * cfg.vertNum := Nat.mul_pos (by omega) (by omega)
  intro k hk
  induction k with
  | zero => omega
  | succ n ih =>
    by_cases hn : n = 0
    · subst hn
      have hidx : cfg.firstLabel - 1 < cfg.horizNum * cfg.vertNum := by omega
      by_cases hw : (cfg.firstLabel - 1) + 1 = cfg.horizNum * cfg.vertNum
      · simp only [walker_iter]
        rw [emit_advance_wrap cfg code _ (cfg.firstLabel - 1) hh hv hw rfl rfl]
        rw [hw]
        simp [init_state, Nat.mod_self, Nat.div_self hN,
          countHeaders_append, countShows_append, countBlocks_append,
          countHeaders, countShows, countBlocks, isHeaderTok, isShowTok, isBlockTok,
          Nat.div_eq_of_lt hidx]
        exact Nat.div_eq_of_lt (by omega)
      · have hlt : (cfg.firstLabel - 1) + 1 < cfg.horizNum * cfg.vertNum := by omega
        simp only [walker_iter]
        rw [emit_advance_nowrap cfg code _ (cfg.firstLabel - 1) hh hv hlt rfl rfl]
        have e1 : ((cfg.firstLabel - 1) + 1) % (cfg.horizNum * cfg.vertNum)
            = (cfg.firstLabel - 1) + 1 := Nat.mod_eq_of_lt hlt
        have e2 : ((cfg.firstLabel - 1) + 1) / (cfg.horizNum * cfg.vertNum) = 0 :=
          Nat.div_eq_of_lt hlt
        rw [e1, e2]
        simp [init_state, countHeaders_append, countShows_append, countBlocks_append,
          countHeaders, countShows, countBlocks, isHeaderTok, isShowTok, isBlockTok,
          Nat.div_eq_of_lt hidx]
    · have hn1 : 1 ≤ n := by omega
      obtain ⟨ihx, ihy, ihp, ihf, ihH, ihS, ihB⟩ := ih hn1
      have hm1 : (cfg.firstLabel - 1) + (n + 1) = ((cfg.firstLabel - 1) + n) + 1 := by omega
      have hmge : 1 ≤ (cfg.firstLabel - 1) + n := by omega
      have hmlt : ((cfg.firstLabel - 1) + n) % (cfg.horizNum * cfg.vertNum)
          < cfg.horizNum * cfg.vertNum := Nat.mod_lt _ hN
      obtain ⟨em, ed⟩ :=
        succ_mod_div ((cfg.firstLabel - 1) + n) (cfg.horizNum * cfg.vertNum) (by omega)
      have hdp := div_pred ((cfg.firstLabel - 1) + n) (cfg.horizNum * cfg.vertNum) hmge (by omega)
      by_cases hw : ((cfg.firstLabel - 1) + n) % (cfg.horizNum * cfg.vertNum) + 1
          = cfg.horizNum * cfg.vertNum
      · rw [if_pos hw] at em ed
        simp only [walker_iter]
        rw [emit_advance_wrap cfg code _
          (((cfg.firstLabel - 1) + n) % (cfg.horizNum * cfg.vertNum)) hh hv hw ihx ihy]
        rw [hm1, em, ed]
        simp only [countHeaders_append, countShows_append, countBlocks_append,
          Nat.add_sub_cancel]
        rw [ihH, ihS, ihB, ihp, ihf]
        by_cases hz : ((cfg.firstLabel - 1) + n) % (cfg.horizNum * cfg.vertNum) = 0
        · rw [if_pos hz] at hdp
          simp [hz, countHeaders, countShows, countBlocks, isHeaderTok, isShowTok,
            isBlockTok, List.countP_append, List.countP_cons]
          all_goals omega
        · rw [if_neg hz] at hdp
          simp [hz, countHeaders, countShows, countBlocks, isHeaderTok, isShowTok,
            isBlockTok, List.countP_append, List.countP_cons]
          all_goals omega
      · rw [if_neg hw] at em ed
        have hlt2 : ((cfg.firstLabel - 1) + n) % (cfg.horizNum * cfg.vertNum) + 1
            < cfg.horizNum * cfg.vertNum := by omega
        simp only [walker_iter]
        rw [emit_advance_nowrap cfg code _
          (((cfg.firstLabel - 1) + n) % (cfg.horizNum * cfg.vertNum)) hh hv hlt2 ihx ihy]
        rw [hm1, em, ed]
        simp only [countHeaders_append, countShows_append, countBlocks_append,
          Nat.add_sub_cancel]
        rw [ihH, ihS, ihB, ihp, ihf]
        by_cases hz : ((cfg.firstLabel - 1) + n) % (cfg.horizNum * cfg.vertNum) = 0
        · rw [if_pos hz] at hdp
          simp [hz, countHeaders, countShows, countBlocks, isHeaderTok, isShowTok,
            isBlockTok, List.countP_append, List.countP_cons]
          all_goals omega
        · rw [if_neg hz] at hdp
          simp [hz, countHeaders, countShows, countBlocks, isHeaderTok, isShowTok,
            isBlockTok, List.countP_append, List.countP_cons]
          all_goals omega

/-- The epilogue's effect on the output counts: headers and blocks are
untouched, and one terminator is added exactly when the final position is
not `(0,0)`. -/
theorem finish_counts (st : MLSt) :
    countHeaders (finish st).out = countHeaders st.out ∧
    countBlocks (finish st).out = countBlocks st.out ∧
    countShows (finish st).out
      = countShows st.out + (if st.x = 0 ∧ st.y = 0 then 0 else 1) := by
  unfold finish
  by_cases hc : st.x = 0 ∧ st.y = 0
  · rw [if_pos hc, if_pos hc]
    simp
  · rw [if_neg hc, if_neg hc]
    simp [countHeaders_append, countShows_append, countBlocks_append,
      countHeaders, countShows, countBlocks, isHeaderTok, isShowTok, isBlockTok]

/-- A grid position is the origin exactly when its linear index is 0. -/
theorem pos_zero_iff (r v : Nat) (_hvp : 0 < v) :
    (r / v = 0 ∧ r % v = 0) ↔ r = 0 := by
  constructor
  · rintro ⟨h1, h2⟩
    have e := Nat.div_add_mod r v
    rw [h1] at e
    omega
  · rintro rfl
    simp

/-- A concrete 3-by-10 sheet (the avery5160 family, 30 labels per page). -/
def cfg3x10 : MLCfg :=
  { fontName := "Times-Roman", fontSize := 12, leftMargin := 45/4, bottomMargin := 16,
    labelWidth := 180, labelHeight := 72, horizSpace := 20, vertSpace := 0,
    horizNum := 3, vertNum := 10, firstLabel := 1,
    delimiter := some ['X','X','X','X','X'], leadingSpaces := 0, minLabelLines := 0 }

/-- C1: starting from `first_label = 1`, the walker's position after `k`
placements is the column-major decomposition `(x, y, page) =
((k / vert) mod horiz, k mod vert, k / (horiz·vert) + 1)` — `y` increments
fastest, wrapping into `x`, which wraps into the page — and a run that
places `count` labels writes exactly `⌈count / N⌉` page headers and
exactly `⌈count / N⌉` page terminators, where `N = horiz_num·vert_num`
(`⌈count/N⌉ = (count + N - 1) / N` in natural division). -/
theorem c1_grid_walker (cfg : MLCfg) (code : List Instr) (count k : Nat)
    (hh : 1 ≤ cfg.horizNum) (hv : 1 ≤ cfg.vertNum) (hfl : cfg.firstLabel = 1) :
    ((walker_iter cfg code k).x = (k / cfg.vertNum) % cfg.horizNum ∧
     (walker_iter cfg code k).y = k % cfg.vertNum ∧
     (walker_iter cfg code k).page = k / (cfg.horizNum * cfg.vertNum) + 1) ∧
    countHeaders (walker_run cfg code count).out
      = (count + cfg.horizNum * cfg.vertNum - 1) / (cfg.horizNum * cfg.vertNum) ∧
    countShows (walker_run cfg code count).out
      = (count + cfg.horizNum * cfg.vertNum - 1) / (cfg.horizNum * cfg.vertNum) := by
  have hN : 0 < cfg.horizNum * cfg.vertNum := Nat.mul_pos (by omega) (by omega)
  have hfl1 : 1 ≤ cfg.firstLabel := by omega
  have hfl2 : cfg.firstLabel ≤ cfg.horizNum * cfg.vertNum := by omega
  have hzero : cfg.firstLabel - 1 = 0 := by omega
  have inv : ∀ j, 1 ≤ j →
      (walker_iter cfg code j).x = (j % (cfg.horizNum * cfg.vertNum)) / cfg.vertNum ∧
      (walker_iter cfg code j).y = (j % (cfg.horizNum * cfg.vertNum)) % cfg.vertNum ∧
      (walker_iter cfg code j).page = j / (cfg.horizNum * cfg.vertNum) + 1 ∧
      countHeaders (walker_iter cfg code j).out
        = (j - 1) / (cfg.horizNum * cfg.vertNum) + 1 ∧
      countShows (walker_iter cfg code j).out = j / (cfg.horizNum * cfg.vertNum) := by
    intro j hj
    have w := walker_inv cfg code hh hv hfl1 hfl2 j hj
    rw [hzero] at w
    simp only [Nat.zero_add] at w
    exact ⟨w.1, w.2.1, w.2.2.1, w.2.2.2.2.1, w.2.2.2.2.2.1⟩
  constructor
  · rcases Nat.eq_zero_or_pos k with hk | hk
    · subst hk
      simp [walker_iter, init_state, hzero]
    · obtain ⟨wx, wy, wp, _, _⟩ := inv k hk
      obtain ⟨g1, g2⟩ := mod_grid_div k cfg.horizNum cfg.vertNum hh hv
      exact ⟨by rw [wx, g1], by rw [wy, g2], wp⟩
  · rcases Nat.eq_zero_or_pos count with hc | hc
    · subst hc
      have hx0 : (walker_iter cfg code 0).x = 0 := by
        simp [walker_iter, init_state, hzero]
      have hy0 : (walker_iter cfg code 0).y = 0 := by
        simp [walker_iter, init_state, hzero]
      obtain ⟨fH, fB, fS⟩ := finish_counts (walker_iter cfg code 0)
      unfold walker_run
      rw [fH, fS, if_pos ⟨hx0, hy0⟩]
      have hz : (cfg.horizNum * cfg.vertNum - 1) / (cfg.horizNum * cfg.vertNum) = 0 :=
        Nat.div_eq_of_lt (by omega)
      simp [walker_iter, init_state, countHeaders, countShows, isHeaderTok, isShowTok, hz]
    · obtain ⟨wx, wy, _, wH, wS⟩ := inv count hc
      obtain ⟨fH, fB, fS⟩ := finish_counts (walker_iter cfg code count)
      unfold walker_run
      rw [fH, fS, wH, wS, wx, wy]
      have e1 : count + cfg.horizNum * cfg.vertNum - 1
          = (count - 1) + cfg.horizNum * cfg.vertNum := by omega
      rw [e1, Nat.add_div_right _ hN]
      have hdp := div_pred count (cfg.horizNum * cfg.vertNum) hc (by omega)
      by_cases hz : count % (cfg.horizNum * cfg.vertNum) = 0
      · rw [if_pos hz] at hdp
        rw [if_pos (((pos_zero_iff _ _ (by omega)).mpr) hz)]
        omega
      · rw [if_neg hz] at hdp
        rw [if_neg (fun hp => hz ((pos_zero_iff _ _ (by omega)).mp hp))]
        omega

/-- C1 witness at a concrete 3×10 sheet: 7 placements from label 1,
position checked after 13 placements. -/
theorem c1_grid_walker_witness :
    (1 ≤ cfg3x10.horizNum ∧ 1 ≤ cfg3x10.vertNum ∧ cfg3x10.firstLabel = 1) ∧
    (((walker_iter cfg3x10 [] 13).x = (13 / cfg3x10.vertNum) % cfg3x10.horizNum ∧
      (walker_iter cfg3x10 [] 13).y = 13 % cfg3x10.vertNum ∧
      (walker_iter cfg3x10 [] 13).page = 13 / (cfg3x10.horizNum * cfg3x10.vertNum) + 1) ∧
     countHeaders (walker_run cfg3x10 [] 7).out
       = (7 + cfg3x10.horizNum * cfg3x10.vertNum - 1) / (cfg3x10.horizNum * cfg3x10.vertNum) ∧
     countShows (walker_run cfg3x10 [] 7).out
       = (7 + cfg3x10.horizNum * cfg3x10.vertNum - 1) / (cfg3x10.horizNum * cfg3x10.vertNum)) :=
  ⟨⟨by decide, by decide, by decide⟩,
   c1_grid_walker cfg3x10 [] 7 13 (by decide) (by decide) (by decide)⟩

/-- C8: after the label stream ends, the run's output differs from the
loop's output by a final page terminator exactly when the walker's final
position is not `(0,0)` (when the last placement wrapped cleanly to
`(0,0)` nothing more is written), and consequently, for every run that
placed at least one label, the total number of page terminators equals
the total number of page headers — every opened page is terminated
exactly once. -/
theorem c8_final_terminator (cfg : MLCfg) (code : List Instr) (count : Nat)
    (hh : 1 ≤ cfg.horizNum) (hv : 1 ≤ cfg.vertNum)
    (hfl1 : 1 ≤ cfg.firstLabel) (hfl2 : cfg.firstLabel ≤ cfg.horizNum * cfg.vertNum) :
    ((walker_run cfg code count).out = (walker_iter cfg code count).out
        ↔ ((walker_iter cfg code count).x = 0 ∧ (walker_iter cfg code count).y = 0)) ∧
    (1 ≤ count →
      countShows (walker_run cfg code count).out
        = countHeaders (walker_run cfg code count).out) := by
  have hN : 0 < cfg.horizNum * cfg.vertNum := Nat.mul_pos (by omega) (by omega)
  constructor
  · unfold walker_run finish
    by_cases hc : (walker_iter cfg code count).x = 0 ∧ (walker_iter cfg code count).y = 0
    · rw [if_pos hc]
      simp [hc]
    · rw [if_neg hc]
      constructor
      · intro hEq
        have hlen := congrArg List.length hEq
        simp at hlen
      · intro hp
        exact absurd hp hc
  · intro hc
    obtain ⟨wx, wy, _, wf, wH, wS, _⟩ := walker_inv cfg code hh hv hfl1 hfl2 count hc
    obtain ⟨fH, fB, fS⟩ := finish_counts (walker_iter cfg code count)
    unfold walker_run
    rw [fH, fS, wH, wS, wx, wy]
    have hmge : 1 ≤ (cfg.firstLabel - 1) + count := by omega
    have hdp := div_pred ((cfg.firstLabel - 1) + count) (cfg.horizNum * cfg.vertNum) hmge
      (by omega)
    by_cases hz : ((cfg.firstLabel - 1) + count) % (cfg.horizNum * cfg.vertNum) = 0
    · rw [if_pos hz] at hdp
      rw [if_pos (((pos_zero_iff _ _ (by omega)).mpr) hz)]
      omega
    · rw [if_neg hz] at hdp
      rw [if_neg (fun hp => hz ((pos_zero_iff _ _ (by omega)).mp hp))]
      omega

/-- C8 witness at a concrete 3×10 sheet with `first_label = 5` and 7
placements: the final position is not the origin, so the run output ends
with one extra terminator, and terminators match headers. -/
theorem c8_final_terminator_witness :
    (1 ≤ cfg3x10.horizNum ∧ 1 ≤ cfg3x10.vertNum ∧ 1 ≤ cfg3x10.firstLabel ∧
      cfg3x10.firstLabel ≤ cfg3x10.horizNum * cfg3x10.vertNum ∧ (1 ≤ (7 : Nat))) ∧
    (((walker_run cfg3x10 [] 7).out = (walker_iter cfg3x10 [] 7).out
        ↔ ((walker_iter cfg3x10 [] 7).x = 0 ∧ (walker_iter cfg3x10 [] 7).y = 0)) ∧
     countShows (walker_run cfg3x10 [] 7).out
        = countHeaders (walker_run cfg3x10 [] 7).out) :=
  ⟨⟨by decide, by decide, by decide, by decide, by decide⟩,
   ⟨(c8_final_terminator cfg3x10 [] 7 (by decide) (by decide) (by decide) (by decide)).1,
    (c8_final_terminator cfg3x10 [] 7 (by decide) (by decide) (by decide) (by decide)).2
      (by decide)⟩⟩

/-- With no delimiter configured, the reading phase never places a label:
it only accumulates the escaped, `rstrip`ped input lines. -/
theorem read_phase_none (cfg : MLCfg) (hd : cfg.delimiter = none) :
    ∀ (input : List (List Char)) (st : MLSt),
      read_phase cfg input st =
        { st with labelLines := st.labelLines ++ input.map (fun l => escape_line (pyRstrip l)) } := by
  intro input
  induction input with
  | nil =>
      intro st
      simp [read_phase]
  | cons l rest ih =>
      intro st
      rw [read_phase, if_neg (by rw [hd]; simp), ih]
      simp

/-- Padding to the minimum line count is idempotent. -/
theorem padLines_idem (m : Nat) (ls : List (List Char)) :
    padLines m (padLines m ls) = padLines m ls := by
  unfold padLines
  rw [List.length_append, List.length_replicate,
    show m - (ls.length + (m - ls.length)) = 0 from by omega]
  simp

/-- The padded line list has the effective line count as its length. -/
theorem padLines_length (m : Nat) (ls : List (List Char)) :
    (padLines m ls).length = max ls.length m := by
  simp [padLines]
  omega

/-- Zero leading spaces leave the lines unchanged. -/
theorem map_leadPad_zero (ls : List (List Char)) : ls.map (leadPad 0) = ls := by
  have h : leadPad 0 = id := by
    funext l
    simp [leadPad]
  rw [h, List.map_id]

/-- With zero leading spaces, re-rendering an already padded label yields
the same drawing code: replication mode re-processes `label_lines` every
placement, but the result is stable. -/
theorem label_code_pad (cfg : MLCfg) (hlead : cfg.leadingSpaces = 0) (ls : List (List Char)) :
    label_code cfg (padLines cfg.minLabelLines ls) = label_code cfg ls := by
  unfold label_code
  rw [hlead, map_leadPad_zero, map_leadPad_zero, padLines_idem, padLines_length,
    show max (max ls.length cfg.minLabelLines) cfg.minLabelLines
      = max ls.length cfg.minLabelLines from by omega]

/-- With no delimiter, a placement does not reset `label_lines`. -/
theorem place_line_none (cfg : MLCfg) (hd : cfg.delimiter = none) (st : MLSt) :
    place_line cfg st = emit_advance cfg (label_code cfg st.labelLines)
      { st with labelLines :=
          (padLines cfg.minLabelLines st.labelLines).map (leadPad cfg.leadingSpaces) } := by
  unfold place_line
  rw [hd]
  simp

/-- A delimiter-less, zero-leading-spaces placement from the last cell of
the page: full resulting state. -/
theorem place_line_wrap (cfg : MLCfg) (st : MLSt)
    (hh : 1 ≤ cfg.horizNum) (hv : 1 ≤ cfg.vertNum)
    (hd : cfg.delimiter = none) (hlead : cfg.leadingSpaces = 0)
    (hy : st.y < cfg.vertNum)
    (hw : st.x * cfg.vertNum + st.y + 1 = cfg.horizNum * cfg.vertNum) :
    place_line cfg st =
      { x := 0, y := 0, page := st.page + 1, startNewPage := true,
        labelLines := padLines cfg.minLabelLines st.labelLines,
        out := st.out ++
          ((if st.startNewPage then [Tok.pageHeader st.page cfg.leftMargin cfg.bottomMargin] else []) ++
           [Tok.block st.x st.y (x_step cfg st.x) (y_step cfg st.y)
              (label_code cfg st.labelLines), Tok.showpage]) } := by
  obtain ⟨er, em⟩ := idx_div_mod st.x st.y cfg.vertNum hy
  have hmap : (padLines cfg.minLabelLines st.labelLines).map (leadPad cfg.leadingSpaces)
      = padLines cfg.minLabelLines st.labelLines := by
    rw [hlead, map_leadPad_zero]
  rw [place_line_none cfg hd, hmap]
  rw [emit_advance_wrap cfg (label_code cfg st.labelLines)
    { st with labelLines := padLines cfg.minLabelLines st.labelLines }
    (st.x * cfg.vertNum + st.y) hh hv hw er.symm em.symm]

/-- A delimiter-less, zero-leading-spaces placement from a non-final cell
of the page: full resulting state. -/
theorem place_line_nowrap (cfg : MLCfg) (st : MLSt)
    (hh : 1 ≤ cfg.horizNum) (hv : 1 ≤ cfg.vertNum)
    (hd : cfg.delimiter = none) (hlead : cfg.leadingSpaces = 0)
    (hy : st.y < cfg.vertNum)
    (hw : st.x * cfg.vertNum + st.y + 1 < cfg.horizNum * cfg.vertNum) :
    place_line cfg st =
      { x := (st.x * cfg.vertNum + st.y + 1) / cfg.vertNum,
        y := (st.x * cfg.vertNum + st.y + 1) % cfg.vertNum,
        page := st.page, startNewPage := false,
        labelLines := padLines cfg.minLabelLines st.labelLines,
        out := st.out ++
          ((if st.startNewPage then [Tok.pageHeader st.page cfg.leftMargin cfg.bottomMargin] else []) ++
           [Tok.block st.x st.y (x_step cfg st.x) (y_step cfg st.y)
              (label_code cfg st.labelLines)]) } := by
  obtain ⟨er, em⟩ := idx_div_mod st.x st.y cfg.vertNum hy
  have hmap : (padLines cfg.minLabelLines st.labelLines).map (leadPad cfg.leadingSpaces)
      = padLines cfg.minLabelLines st.labelLines := by
    rw [hlead, map_leadPad_zero]
  rw [place_line_none cfg hd, hmap]
  rw [emit_advance_nowrap cfg (label_code cfg st.labelLines)
    { st with labelLines := padLines cfg.minLabelLines st.labelLines }
    (st.x * cfg.vertNum + st.y) hh hv hw er.symm em.symm]

/-- Specification of the single-page replication phase: started from a
valid position with linear index `i = x·vert + y` (with no delimiter and
no leading spaces), it appends to the output one page header if
`start_new_page` was armed, one block per remaining cell of the page
(every block carrying the same drawing code, rendered from the
accumulated `label_lines`), and exactly one terminator; it stops at
position `(0,0)` with the page counter incremented once.  Fuel
`horiz·vert` is always sufficient. -/
theorem repl_go_spec (cfg : MLCfg) (hh : 1 ≤ cfg.horizNum) (hv : 1 ≤ cfg.vertNum)
    (hd : cfg.delimiter = none) (hlead : cfg.leadingSpaces = 0) :
    ∀ (fuel : Nat) (st : MLSt), st.x < cfg.horizNum → st.y < cfg.vertNum →
      cfg.horizNum * cfg.vertNum - (st.x * cfg.vertNum + st.y) ≤ fuel →
      ∃ d : List Tok,
        (repl_go cfg fuel st).out = st.out ++ d ∧
        (repl_go cfg fuel st).x = 0 ∧ (repl_go cfg fuel st).y = 0 ∧
        (repl_go cfg fuel st).page = st.page + 1 ∧
        countHeaders d = (if st.startNewPage then 1 else 0) ∧
        countShows d = 1 ∧
        countBlocks d = cfg.horizNum * cfg.vertNum - (st.x * cfg.vertNum + st.y) ∧
        (∀ x y tx ty c, Tok.block x y tx ty c ∈ d → c = label_code cfg st.labelLines) := by
  intro fuel
  induction fuel with
  | zero =>
      intro st hx hy hfuel
      exfalso
      have h1 : (st.x + 1) * cfg.vertNum ≤ cfg.horizNum * cfg.vertNum :=
        Nat.mul_le_mul_right _ (by omega)
      have h2 : (st.x + 1) * cfg.vertNum = st.x * cfg.vertNum + cfg.vertNum := by ring
      omega
  | succ fuel ih =>
      intro st hx hy hfuel
      have hidx : st.x * cfg.vertNum + st.y < cfg.horizNum * cfg.vertNum := by
        have h1 : (st.x + 1) * cfg.vertNum ≤ cfg.horizNum * cfg.vertNum :=
          Nat.mul_le_mul_right _ (by omega)
        have h2 : (st.x + 1) * cfg.vertNum = st.x * cfg.vertNum + cfg.vertNum := by ring
        omega
      by_cases hw : st.x * cfg.vertNum + st.y + 1 = cfg.horizNum * cfg.vertNum
      · rw [repl_go, place_line_wrap cfg st hh hv hd hlead hy hw]
        dsimp only
        rw [if_pos (Or.inr (Or.inr ⟨rfl, rfl⟩))]
        refine ⟨(if st.startNewPage then
            [Tok.pageHeader st.page cfg.leftMargin cfg.bottomMargin] else []) ++
            [Tok.block st.x st.y (x_step cfg st.x) (y_step cfg st.y)
              (label_code cfg st.labelLines), Tok.showpage],
          rfl, rfl, rfl, rfl, ?_, ?_, ?_, ?_⟩
        · cases hb : st.startNewPage <;>
            simp [countHeaders, isHeaderTok, List.countP_append, List.countP_cons]
        · cases hb : st.startNewPage <;>
            simp [countShows, isShowTok, List.countP_append, List.countP_cons]
        · have hbl : cfg.horizNum * cfg.vertNum - (st.x * cfg.vertNum + st.y) = 1 := by omega
          rw [hbl]
          cases hb : st.startNewPage <;>
            simp [countBlocks, isBlockTok, List.countP_append, List.countP_cons]
        · intro x y tx ty c hmem
          rcases List.mem_append.mp hmem with hmem | hmem
          · cases hb : st.startNewPage <;> rw [hb] at hmem <;> simp at hmem
          · simp at hmem
            exact hmem.2.2.2.2
      · have hw2 : st.x * cfg.vertNum + st.y + 1 < cfg.horizNum * cfg.vertNum := by omega
        rw [repl_go, place_line_nowrap cfg st hh hv hd hlead hy hw2]
        dsimp only
        have hy1 : (st.x * cfg.vertNum + st.y + 1) % cfg.vertNum < cfg.vertNum :=
          Nat.mod_lt _ (by omega)
        have hx1 : (st.x * cfg.vertNum + st.y + 1) / cfg.vertNum < cfg.horizNum :=
          div_lt_of_lt_mul _ _ _ hv hw2
        have hnz : ¬ ((st.x * cfg.vertNum + st.y + 1) / cfg.vertNum = 0 ∧
            (st.x * cfg.vertNum + st.y + 1) % cfg.vertNum = 0) := by
          intro hp
          have h0 := (pos_zero_iff _ _ (show 0 < cfg.vertNum by omega)).mp hp
          omega
        have hcond : ¬ (cfg.vertNum ≤ (st.x * cfg.vertNum + st.y + 1) % cfg.vertNum ∨
            cfg.horizNum ≤ (st.x * cfg.vertNum + st.y + 1) / cfg.vertNum ∨
            ((st.x * cfg.vertNum + st.y + 1) / cfg.vertNum = 0 ∧
             (st.x * cfg.vertNum + st.y + 1) % cfg.vertNum = 0)) := by
          rintro (h | h | h)
          · omega
          · omega
          · exact hnz h
        rw [if_neg hcond]
        have hdm := Nat.div_add_mod (st.x * cfg.vertNum + st.y + 1) cfg.vertNum
        have hcomm : ((st.x * cfg.vertNum + st.y + 1) / cfg.vertNum) * cfg.vertNum
            = cfg.vertNum * ((st.x * cfg.vertNum + st.y + 1) / cfg.vertNum) := by ring
        have hmeas : cfg.horizNum * cfg.vertNum -
            (((st.x * cfg.vertNum + st.y + 1) / cfg.vertNum) * cfg.vertNum +
              ((st.x * cfg.vertNum + st.y + 1) % cfg.vertNum)) ≤ fuel := by
          omega
        obtain ⟨d2, hout2, hx2, hy2, hp2, hH2, hS2, hB2, hC2⟩ :=
          ih { x := (st.x * cfg.vertNum + st.y + 1) / cfg.vertNum,
               y := (st.x * cfg.vertNum + st.y + 1) % cfg.vertNum,
               page := st.page, startNewPage := false,
               labelLines := padLines cfg.minLabelLines st.labelLines,
               out := st.out ++
                 ((if st.startNewPage then
                    [Tok.pageHeader st.page cfg.leftMargin cfg.bottomMargin] else []) ++
                  [Tok.block st.x st.y (x_step cfg st.x) (y_step cfg st.y)
                    (label_code cfg st.labelLines)]) } hx1 hy1 hmeas
        dsimp only at hout2 hp2 hH2 hB2
        refine ⟨((if st.startNewPage then
            [Tok.pageHeader st.page cfg.leftMargin cfg.bottomMargin] else []) ++
            [Tok.block st.x st.y (x_step cfg st.x) (y_step cfg st.y)
              (label_code cfg st.labelLines)]) ++ d2, ?_, hx2, hy2, ?_, ?_, ?_, ?_, ?_⟩
        · rw [hout2]
          simp [List.append_assoc]
        · rw [hp2]
        · rw [countHeaders_append, hH2]
          cases hb : st.startNewPage <;>
            simp [countHeaders, isHeaderTok, List.countP_append, List.countP_cons]
        · rw [countShows_append, hS2]
          cases hb : st.startNewPage <;>
            simp [countShows, isShowTok, List.countP_append, List.countP_cons]
        · rw [countBlocks_append, hB2]
          have hbl : countBlocks ((if st.startNewPage then
              [Tok.pageHeader st.page cfg.leftMargin cfg.bottomMargin] else []) ++
              [Tok.block st.x st.y (x_step cfg st.x) (y_step cfg st.y)
                (label_code cfg st.labelLines)]) = 1 := by
            cases hb : st.startNewPage <;>
              simp [countBlocks, isBlockTok, List.countP_append, List.countP_cons]
          rw [hbl]
          omega
        · intro x y tx ty c hmem
          rcases List.mem_append.mp hmem with hmem | hmem
          · rcases List.mem_append.mp hmem with hmem | hmem
            · cases hb : st.startNewPage <;> rw [hb] at hmem <;> simp at hmem
            · simp at hmem
              exact hmem.2.2.2.2
          · have hcc := hC2 x y tx ty c hmem
            rw [hcc]
            exact label_code_pad cfg hlead st.labelLines

/-- C2 (amended): in line mode with no delimiter, no leading spaces, and a
nonempty input forming a single label, the run emits exactly one page
header and exactly one terminator, places one block per grid cell from the
`first_label` offset to the end of the page, ends exactly at `(0,0)` on
page counter 2 (never reaching a second page), and every placed block
carries the same drawing code (rendered from the escaped input lines). -/
theorem c2_single_page_replication (cfg : MLCfg) (input : List (List Char))
    (hh : 1 ≤ cfg.horizNum) (hv : 1 ≤ cfg.vertNum)
    (hfl1 : 1 ≤ cfg.firstLabel) (hfl2 : cfg.firstLabel ≤ cfg.horizNum * cfg.vertNum)
    (hd : cfg.delimiter = none) (hlead : cfg.leadingSpaces = 0) (hne : input ≠ []) :
    countHeaders (line_run cfg input).out = 1 ∧
    countShows (line_run cfg input).out = 1 ∧
    countBlocks (line_run cfg input).out
      = cfg.horizNum * cfg.vertNum - (cfg.firstLabel - 1) ∧
    (line_run cfg input).x = 0 ∧ (line_run cfg input).y = 0 ∧
    (line_run cfg input).page = 2 ∧
    (∀ x y tx ty c, Tok.block x y tx ty c ∈ (line_run cfg input).out →
        c = label_code cfg (input.map (fun s => escape_line (pyRstrip s)))) := by
  obtain ⟨l, rest, rfl⟩ : ∃ l rest, input = l :: rest := by
    cases input with
    | nil => exact absurd rfl hne
    | cons a b => exact ⟨a, b, rfl⟩
  have hN : 0 < cfg.horizNum * cfg.vertNum := Nat.mul_pos (by omega) (by omega)
  have hidx : cfg.firstLabel - 1 < cfg.horizNum * cfg.vertNum := by omega
  have hx1 : (cfg.firstLabel - 1) / cfg.vertNum < cfg.horizNum :=
    div_lt_of_lt_mul _ _ _ hv hidx
  have hy1 : (cfg.firstLabel - 1) % cfg.vertNum < cfg.vertNum := Nat.mod_lt _ (by omega)
  have hdm := Nat.div_add_mod (cfg.firstLabel - 1) cfg.vertNum
  have hcomm : ((cfg.firstLabel - 1) / cfg.vertNum) * cfg.vertNum
      = cfg.vertNum * ((cfg.firstLabel - 1) / cfg.vertNum) := by ring
  have hmeas : cfg.horizNum * cfg.vertNum -
      (((cfg.firstLabel - 1) / cfg.vertNum) * cfg.vertNum +
        (cfg.firstLabel - 1) % cfg.vertNum) ≤ cfg.horizNum * cfg.vertNum := by omega
  obtain ⟨d, hout, hx0, hy0, hp, hH, hS, hB, hC⟩ :=
    repl_go_spec cfg hh hv hd hlead (cfg.horizNum * cfg.vertNum)
      { x := (cfg.firstLabel - 1) / cfg.vertNum, y := (cfg.firstLabel - 1) % cfg.vertNum,
        page := 1, startNewPage := true,
        labelLines := (l :: rest).map (fun s => escape_line (pyRstrip s)), out := [] }
      hx1 hy1 hmeas
  have hrp := read_phase_none cfg hd (l :: rest) (init_state cfg)
  have hlr : line_run cfg (l :: rest) = finish (repl_go cfg (cfg.horizNum * cfg.vertNum)
      { x := (cfg.firstLabel - 1) / cfg.vertNum, y := (cfg.firstLabel - 1) % cfg.vertNum,
        page := 1, startNewPage := true,
        labelLines := (l :: rest).map (fun s => escape_line (pyRstrip s)), out := [] }) := by
    simp only [line_run]
    rw [hrp]
    simp only [init_state, List.nil_append]
    rw [if_pos ⟨hd, hy1, hx1⟩]
  have hfin : line_run cfg (l :: rest) = repl_go cfg (cfg.horizNum * cfg.vertNum)
      { x := (cfg.firstLabel - 1) / cfg.vertNum, y := (cfg.firstLabel - 1) % cfg.vertNum,
        page := 1, startNewPage := true,
        labelLines := (l :: rest).map (fun s => escape_line (pyRstrip s)), out := [] } := by
    rw [hlr]
    unfold finish
    rw [if_pos ⟨hx0, hy0⟩]
  have hout1 : (repl_go cfg (cfg.horizNum * cfg.vertNum)
      { x := (cfg.firstLabel - 1) / cfg.vertNum, y := (cfg.firstLabel - 1) % cfg.vertNum,
        page := 1, startNewPage := true,
        labelLines := (l :: rest).map (fun s => escape_line (pyRstrip s)), out := [] }).out
      = d := by
    have hout0 : (repl_go cfg (cfg.horizNum * cfg.vertNum)
        { x := (cfg.firstLabel - 1) / cfg.vertNum, y := (cfg.firstLabel - 1) % cfg.vertNum,
          page := 1, startNewPage := true,
          labelLines := (l :: rest).map (fun s => escape_line (pyRstrip s)), out := [] }).out
        = [] ++ d := hout
    rw [List.nil_append] at hout0
    exact hout0
  have hH1 : countHeaders d = 1 := hH
  have hB1 : countBlocks d = cfg.horizNum * cfg.vertNum -
      (((cfg.firstLabel - 1) / cfg.vertNum) * cfg.vertNum +
        (cfg.firstLabel - 1) % cfg.vertNum) := hB
  have hp1 : (repl_go cfg (cfg.horizNum * cfg.vertNum)
      { x := (cfg.firstLabel - 1) / cfg.vertNum, y := (cfg.firstLabel - 1) % cfg.vertNum,
        page := 1, startNewPage := true,
        labelLines := (l :: rest).map (fun s => escape_line (pyRstrip s)), out := [] }).page
      = 1 + 1 := hp
  have hC1 : ∀ x y tx ty c, Tok.block x y tx ty c ∈ d →
      c = label_code cfg ((l :: rest).map (fun s => escape_line (pyRstrip s))) := hC
  rw [hfin]
  refine ⟨?_, ?_, ?_, hx0, hy0, ?_, ?_⟩
  · rw [hout1, hH1]
  · rw [hout1, hS]
  · rw [hout1, hB1]
    omega
  · omega
  · intro x y tx ty c hmem
    rw [hout1] at hmem
    exact hC1 x y tx ty c hmem

/-- A concrete delimiter-less line-mode sheet: 1×2 grid, no leading
spaces. -/
def cfgRepl : MLCfg :=
  { fontName := "Times-Roman", fontSize := 12, leftMargin := 0, bottomMargin := 0,
    labelWidth := 10, labelHeight := 10, horizSpace := 0, vertSpace := 0,
    horizNum := 1, vertNum := 2, firstLabel := 1, delimiter := none,
    leadingSpaces := 0, minLabelLines := 0 }

/-- C2 witness: the single-label replication run on the concrete 1×2
sheet with input line `a`. -/
theorem c2_single_page_replication_witness :
    (1 ≤ cfgRepl.horizNum ∧ 1 ≤ cfgRepl.vertNum ∧ 1 ≤ cfgRepl.firstLabel ∧
      cfgRepl.firstLabel ≤ cfgRepl.horizNum * cfgRepl.vertNum ∧
      cfgRepl.delimiter = none ∧ cfgRepl.leadingSpaces = 0 ∧ ([['a']] : List (List Char)) ≠ []) ∧
    (countHeaders (line_run cfgRepl [['a']]).out = 1 ∧
     countShows (line_run cfgRepl [['a']]).out = 1 ∧
     countBlocks (line_run cfgRepl [['a']]).out
       = cfgRepl.horizNum * cfgRepl.vertNum - (cfgRepl.firstLabel - 1) ∧
     (line_run cfgRepl [['a']]).x = 0 ∧ (line_run cfgRepl [['a']]).y = 0 ∧
     (line_run cfgRepl [['a']]).page = 2 ∧
     (∀ x y tx ty c, Tok.block x y tx ty c ∈ (line_run cfgRepl [['a']]).out →
         c = label_code cfgRepl ([['a']].map (fun s => escape_line (pyRstrip s))))) :=
  ⟨⟨by decide, by decide, by decide, by decide, by decide, by decide, by decide⟩,
   c2_single_page_replication cfgRepl [['a']] (by decide) (by decide) (by decide)
     (by decide) (by decide) (by decide) (by decide)⟩

/-- The same 1×2 sheet but with one leading space configured. -/
def cfgReplPad : MLCfg :=
  { fontName := "Times-Roman", fontSize := 12, leftMargin := 0, bottomMargin := 0,
    labelWidth := 10, labelHeight := 10, horizSpace := 0, vertSpace := 0,
    horizNum := 1, vertNum := 2, firstLabel := 1, delimiter := none,
    leadingSpaces := 1, minLabelLines := 0 }

/-- C2 counterexample to the claim as stated: a line-mode run with no
delimiter and a single label's worth of content in which the placed
blocks do NOT carry identical drawing instructions — with
`leading_spaces = 1` the left padding is re-applied at every placement of
the replication loop, so the second block shows `  a` where the first
shows ` a`.  (The run still fills exactly one page.) -/
theorem c2_counterexample :
    cfgReplPad.delimiter = none ∧
    countHeaders (line_run cfgReplPad [['a']]).out = 1 ∧
    countShows (line_run cfgReplPad [['a']]).out = 1 ∧
    (blockCodes (line_run cfgReplPad [['a']]).out).length = 2 ∧
    (blockCodes (line_run cfgReplPad [['a']]).out).getD 0 []
      ≠ (blockCodes (line_run cfgReplPad [['a']]).out).getD 1 [] := by
  with_unfolding_all decide

/-- The replace helper distributes over append. -/
theorem pyReplace_append (old : Char) (new a b : List Char) :
    pyReplace old new (a ++ b) = pyReplace old new a ++ pyReplace old new b := by
  induction a with
  | nil => simp [pyReplace]
  | cons c rest ih => simp [pyReplace, ih]

/-- The three chained replaces act independently on each character. -/
theorem escape_line_cons (c : Char) (l : List Char) :
    escape_line (c :: l) = escChar c ++ escape_line l := by
  by_cases h1 : c = '\\'
  · subst h1
    simp [escape_line, pyReplace, pyReplace_append, escChar]
  · by_cases h2 : c = '('
    · subst h2
      simp [escape_line, pyReplace, pyReplace_append, escChar]
    · by_cases h3 : c = ')'
      · subst h3
        simp [escape_line, pyReplace, pyReplace_append, escChar]
      · simp [escape_line, pyReplace, pyReplace_append, escChar, h1, h2, h3]

/-- The chained replaces of `make_labels` equal the per-character
escaping: each occurrence of `\`, `(`, `)` receives exactly one escaping
backslash, independently of the rest of the line. -/
theorem escape_line_eq_escAll (l : List Char) : escape_line l = escAll l := by
  induction l with
  | nil => rfl
  | cons c rest ih => rw [escape_line_cons, ih, escAll]

/-- Backslash bookkeeping: the escaped line has one backslash per original
backslash (kept), plus one per original `\`, `(`, `)` (the escapes). -/
theorem escAll_count_backslash (l : List Char) :
    (escAll l).count '\\' = 2 * l.count '\\' + l.count '(' + l.count ')' := by
  induction l with
  | nil => simp [escAll]
  | cons c rest ih =>
      by_cases h1 : c = '\\'
      · subst h1
        simp [escAll, escChar, List.count_append, List.count_cons, ih]
        all_goals omega
      · by_cases h2 : c = '('
        · subst h2
          simp [escAll, escChar, List.count_append, List.count_cons, ih]
          all_goals omega
        · by_cases h3 : c = ')'
          · subst h3
            simp [escAll, escChar, List.count_append, List.count_cons, ih]
            all_goals omega
          · simp [escAll, escChar, List.count_append, List.count_cons, h1, h2, h3, ih]

/-- Escaped content is transparent to the PostScript scanner: scanning an
escaped line followed by anything continues exactly as if the line were
absent. -/
theorem psScanF_escAll (l : List Char) : ∀ (t : List Char) (d : Nat),
    psScanF (escAll l ++ t) false d = psScanF t false d := by
  induction l with
  | nil =>
      intro t d
      simp [escAll]
  | cons c rest ih =>
      intro t d
      by_cases h1 : c = '\\' ∨ c = '(' ∨ c = ')'
      · have he : escChar c = ['\\', c] := by simp [escChar, h1]
        rw [escAll, he]
        simp only [List.cons_append, List.append_assoc]
        simp only [psScanF]
        simp [List.nil_append, ih]
      · have he : escChar c = [c] := by simp [escChar, h1]
        push_neg at h1
        rw [escAll, he]
        simp only [List.cons_append, List.append_assoc]
        simp only [psScanF]
        simp [h1.1, h1.2.1, h1.2.2, List.nil_append, ih]

/-- Leading spaces are transparent to the scanner. -/
theorem psScanF_spaces (n : Nat) (t : List Char) (d : Nat) :
    psScanF (List.replicate n ' ' ++ t) false d = psScanF t false d := by
  induction n with
  | zero => simp
  | succ m ih =>
      rw [List.replicate_succ, List.cons_append]
      simp only [psScanF]
      simp [ih]

/-- C5 (amended): in line input mode every label line is escaped before
rendering: the escaping equals the per-character map (each occurrence of
`\`, `(`, `)` gains exactly one escaping backslash), the backslash count
is exactly one per special character (originals kept), and the emitted
`( ... ) show` instruction is balanced for the PostScript tokenizer, for
any number of leading pad spaces.  (CSV-mode fields bypass this escaping
entirely — see the counterexample.) -/
theorem c5_line_mode_escaping (lead : Nat) (l : List Char) :
    escape_line l = escAll l ∧
    (escape_line l).count '\\' = 2 * l.count '\\' + l.count '(' + l.count ')' ∧
    psBalanced (showInstrChars (leadPad lead (escape_line l))) = true := by
  refine ⟨escape_line_eq_escAll l, ?_, ?_⟩
  · rw [escape_line_eq_escAll]
    exact escAll_count_backslash l
  · unfold psBalanced psScan showInstrChars leadPad
    rw [escape_line_eq_escAll]
    simp only [List.cons_append, List.append_assoc]
    have h0 : psScanF
        ('(' :: (List.replicate lead ' ' ++
          (escAll l ++ [')', ' ', 's', 'h', 'o', 'w', '\x0a']))) false 0
        = psScanF (List.replicate lead ' ' ++
            (escAll l ++ [')', ' ', 's', 'h', 'o', 'w', '\x0a'])) false 1 := by
      simp [psScanF]
    rw [h0, psScanF_spaces, psScanF_escAll]
    decide

/-- A concrete CSV-mode configuration on a 1×2 grid. -/
def cfgCsv : MLCfg :=
  { fontName := "Times-Roman", fontSize := 12, leftMargin := 0, bottomMargin := 0,
    labelWidth := 10, labelHeight := 10, horizSpace := 0, vertSpace := 0,
    horizNum := 1, vertNum := 2, firstLabel := 1, delimiter := none,
    leadingSpaces := 0, minLabelLines := 0 }

/-- C5 counterexample to the claim as stated: in CSV mode a field
containing `(` reaches the rendered show instruction completely
unescaped (zero backslashes instead of "escaped exactly once"), and the
resulting instruction is not syntactically balanced. -/
theorem c5_csv_counterexample :
    showTexts ((blockCodes (csv_run cfgCsv [[['(']]]).out).getD 0 []) = [['(']] ∧
    (['('] : List Char).count '\\' = 0 ∧
    psBalanced (showInstrChars ['(']) = false := by
  with_unfolding_all decide

/-- C6 (amended): the font-selection instruction of every rendered
line/CSV label carries the `"%d"`-truncation of
`font_size / (1 + (n - 4)/10)` where `n` is the effective line count
(after min-label-lines padding); the untruncated effective size equals
`font_size` exactly at `n = 4` and `font_size / 2` exactly at `n = 14`. -/
theorem c6_font_autoscale (cfg : MLCfg) (ls : List (List Char)) (fs : ℚ) :
    (label_code cfg ls).getD 1 Instr.newpath
      = Instr.setfont cfg.fontName
          (pyTrunc (effective_fontsize cfg.fontSize (max ls.length cfg.minLabelLines))) ∧
    effective_fontsize fs 4 = fs ∧
    effective_fontsize fs 14 = fs / 2 := by
  refine ⟨rfl, ?_, ?_⟩
  · unfold effective_fontsize
    norm_num
  · unfold effective_fontsize
    norm_num

/-- C6 counterexample to the claim as stated: with the configured
font size 12 and an effective line count of 5, the emitted
font-selection instruction carries the integer 10, but
`font_size / (1 + (n-4)/10) = 120/11 ≠ 10` — the `"%d"` write truncates
the scaled size, so the emitted font size does not equal the formula. -/
theorem c6_counterexample :
    (label_code cfgRepl [['a'], ['b'], ['c'], ['d'], ['e']]).getD 1 Instr.newpath
      = Instr.setfont "Times-Roman" 10 ∧
    ((10 : ℚ) ≠ effective_fontsize cfgRepl.fontSize 5) := by
  with_unfolding_all decide

/-- Rational bounds of natural division. -/
theorem natCast_div_bounds (n d : Nat) (hd : 0 < d) :
    ((n / d : Nat) : ℚ) ≤ (n : ℚ) / (d : ℚ) ∧
    (n : ℚ) / (d : ℚ) < ((n / d : Nat) : ℚ) + 1 := by
  have hden : (0 : ℚ) < (d : ℚ) := by exact_mod_cast hd
  constructor
  · rw [le_div_iff₀ hden]
    exact_mod_cast Nat.div_mul_le_self n d
  · rw [div_lt_iff₀ hden]
    have hn : n < (n / d + 1) * d := by
      have hdm := Nat.div_add_mod n d
      have hmod : n % d < d := Nat.mod_lt _ hd
      have hexp : (n / d + 1) * d = (n / d) * d + d := by ring
      have hcomm : (n / d) * d = d * (n / d) := by ring
      omega
    exact_mod_cast hn

/-- The `"%d"` truncation of a nonnegative rational: it reproduces the
value exactly when and only when the value is an integer, and is always
within one below it. -/
theorem pyTrunc_nonneg_spec (q : ℚ) (hq : 0 ≤ q) :
    ((pyTrunc q : ℚ) = q ↔ q.den = 1) ∧
    (pyTrunc q : ℚ) ≤ q ∧ q < (pyTrunc q : ℚ) + 1 := by
  have hd : 0 < q.den := q.den_pos
  have hnum : (q.num.toNat : Int) = q.num :=
    Int.toNat_of_nonneg (Rat.num_nonneg.mpr hq)
  have hcast : ((q.num.toNat : ℚ)) = ((q.num : ℚ)) := by exact_mod_cast hnum
  have hfrac : ((q.num.toNat : ℚ)) / ((q.den : ℚ)) = q := by
    rw [hcast]
    exact Rat.num_div_den q
  have htr : (pyTrunc q : ℚ) = ((q.num.toNat / q.den : Nat) : ℚ) := by
    unfold pyTrunc
    rw [if_pos hq]
    norm_cast
  obtain ⟨hb1, hb2⟩ := natCast_div_bounds q.num.toNat q.den hd
  rw [hfrac] at hb1 hb2
  refine ⟨⟨?_, ?_⟩, ?_, ?_⟩
  · intro he
    have hdi : ((pyTrunc q : ℚ)).den = 1 := Rat.den_intCast _
    rw [he] at hdi
    exact hdi
  · intro hde
    rw [htr, hde, Nat.div_one, hcast]
    conv_rhs => rw [← Rat.num_div_den q]
    rw [hde]
    norm_num
  · rw [htr]
    exact hb1
  · rw [htr]
    exact hb2

/-- C4 (amended): the translation written for a block at grid position
`(x, y)` is the `"%d"`-truncation of `x·(label_width + horiz_space)` and
`y·(label_height + vert_space)`: it is within one point below the exact
product, and equals it exactly when — and only when — the product is an
integer (so the written translation matches the spec formula only for
integral products, not for all fractional geometry). -/
theorem c4_translation_truncated (cfg : MLCfg) (x y : Nat)
    (hw : 0 ≤ cfg.labelWidth + cfg.horizSpace)
    (hh : 0 ≤ cfg.labelHeight + cfg.vertSpace) :
    ((x_step cfg x : ℚ) = (x : ℚ) * (cfg.labelWidth + cfg.horizSpace)
        ↔ ((x : ℚ) * (cfg.labelWidth + cfg.horizSpace)).den = 1) ∧
    (x_step cfg x : ℚ) ≤ (x : ℚ) * (cfg.labelWidth + cfg.horizSpace) ∧
    (x : ℚ) * (cfg.labelWidth + cfg.horizSpace) < (x_step cfg x : ℚ) + 1 ∧
    ((y_step cfg y : ℚ) = (y : ℚ) * (cfg.labelHeight + cfg.vertSpace)
        ↔ ((y : ℚ) * (cfg.labelHeight + cfg.vertSpace)).den = 1) ∧
    (y_step cfg y : ℚ) ≤ (y : ℚ) * (cfg.labelHeight + cfg.vertSpace) ∧
    (y : ℚ) * (cfg.labelHeight + cfg.vertSpace) < (y_step cfg y : ℚ) + 1 := by
  have hx : 0 ≤ (x : ℚ) * (cfg.labelWidth + cfg.horizSpace) :=
    mul_nonneg (by exact_mod_cast Nat.zero_le x) hw
  have hy : 0 ≤ (y : ℚ) * (cfg.labelHeight + cfg.vertSpace) :=
    mul_nonneg (by exact_mod_cast Nat.zero_le y) hh
  obtain ⟨hxi, hxl, hxu⟩ := pyTrunc_nonneg_spec _ hx
  obtain ⟨hyi, hyl, hyu⟩ := pyTrunc_nonneg_spec _ hy
  exact ⟨hxi, hxl, hxu, hyi, hyl, hyu⟩

/-- The resolved avery5167 sheet configuration (fractional
`horiz_space = 22.5`). -/
def cfgAvery : MLCfg := toMLCfg avery5167 none 0 0

/-- C4 witness at the concrete avery5167 geometry, column 2 and row 3. -/
theorem c4_translation_truncated_witness :
    (0 ≤ cfgAvery.labelWidth + cfgAvery.horizSpace ∧
      0 ≤ cfgAvery.labelHeight + cfgAvery.vertSpace) ∧
    (((x_step cfgAvery 2 : ℚ) = (2 : ℚ) * (cfgAvery.labelWidth + cfgAvery.horizSpace)
        ↔ (((2 : Nat) : ℚ) * (cfgAvery.labelWidth + cfgAvery.horizSpace)).den = 1) ∧
     (x_step cfgAvery 2 : ℚ) ≤ ((2 : Nat) : ℚ) * (cfgAvery.labelWidth + cfgAvery.horizSpace) ∧
     ((2 : Nat) : ℚ) * (cfgAvery.labelWidth + cfgAvery.horizSpace) < (x_step cfgAvery 2 : ℚ) + 1 ∧
     ((y_step cfgAvery 3 : ℚ) = ((3 : Nat) : ℚ) * (cfgAvery.labelHeight + cfgAvery.vertSpace)
        ↔ (((3 : Nat) : ℚ) * (cfgAvery.labelHeight + cfgAvery.vertSpace)).den = 1) ∧
     (y_step cfgAvery 3 : ℚ) ≤ ((3 : Nat) : ℚ) * (cfgAvery.labelHeight + cfgAvery.vertSpace) ∧
     ((3 : Nat) : ℚ) * (cfgAvery.labelHeight + cfgAvery.vertSpace) < (y_step cfgAvery 3 : ℚ) + 1) :=
  ⟨⟨by with_unfolding_all decide, by with_unfolding_all decide⟩,
   c4_translation_truncated cfgAvery 2 3
     (by with_unfolding_all decide) (by with_unfolding_all decide)⟩

/-- C4 counterexample to the claim as stated: on the avery5167 geometry
(`label_width = 126`, `horiz_space = 22.5`) the block at column `x = 1`
is written with horizontal translation 148, not the exact
`1·(126 + 22.5) = 148.5` — the `"%d"` write truncates the product. -/
theorem c4_counterexample :
    x_step cfgAvery 1 = 148 ∧
    ((x_step cfgAvery 1 : ℚ))
      ≠ (1 : ℚ) * (cfgAvery.labelWidth + cfgAvery.horizSpace) := by
  with_unfolding_all decide

/-- C7: `absorb` takes the other spec's value exactly for the fields still
at their unset sentinel — `none` for the eight geometry fields, the
library default for `first_label`, `font_name` and `font_size` — and
keeps every field that differs from its sentinel (however it was set)
unchanged. -/
theorem c7_absorb_fields (s t : SheetSpec) :
    (s.absorb t).left_margin
      = (if s.left_margin = none then t.left_margin else s.left_margin) ∧
    (s.absorb t).bottom_margin
      = (if s.bottom_margin = none then t.bottom_margin else s.bottom_margin) ∧
    (s.absorb t).label_width
      = (if s.label_width = none then t.label_width else s.label_width) ∧
    (s.absorb t).label_height
      = (if s.label_height = none then t.label_height else s.label_height) ∧
    (s.absorb t).horiz_space
      = (if s.horiz_space = none then t.horiz_space else s.horiz_space) ∧
    (s.absorb t).vert_space
      = (if s.vert_space = none then t.vert_space else s.vert_space) ∧
    (s.absorb t).horiz_num_labels
      = (if s.horiz_num_labels = none then t.horiz_num_labels else s.horiz_num_labels) ∧
    (s.absorb t).vert_num_labels
      = (if s.vert_num_labels = none then t.vert_num_labels else s.vert_num_labels) ∧
    (s.absorb t).first_label
      = (if s.first_label = default_first_label then t.first_label else s.first_label) ∧
    (s.absorb t).font_name
      = (if s.font_name = default_font_name then t.font_name else s.font_name) ∧
    (s.absorb t).font_size
      = (if s.font_size = default_font_size then t.font_size else s.font_size) :=
  ⟨rfl, rfl, rfl, rfl, rfl, rfl, rfl, rfl, rfl, rfl, rfl⟩

/-- Python's `int(q) == q` holds exactly for integral rationals. -/
theorem is_int_q_iff (q : ℚ) : is_int_q q = true ↔ q.den = 1 := by
  unfold is_int_q
  rw [beq_iff_eq]
  constructor
  · intro he
    have hdi : ((pyTrunc q : ℚ)).den = 1 := Rat.den_intCast _
    rw [he] at hdi
    exact hdi
  · intro hd
    unfold pyTrunc
    by_cases hpos : 0 ≤ q
    · rw [if_pos hpos]
      have hnum : (q.num.toNat : Int) = q.num :=
        Int.toNat_of_nonneg (Rat.num_nonneg.mpr hpos)
      have hcast : ((q.num.toNat : ℚ)) = ((q.num : ℚ)) := by exact_mod_cast hnum
      rw [hd, Nat.div_one]
      rw [show (((q.num.toNat : Nat) : Int) : ℚ) = ((q.num.toNat : Nat) : ℚ) from by norm_cast]
      rw [hcast]
      conv_rhs => rw [← Rat.num_div_den q]
      rw [hd]
      norm_num
    · rw [if_neg hpos]
      have hneg : 0 ≤ (-q) := by linarith [lt_of_not_ge hpos]
      have hnum : ((-q).num.toNat : Int) = (-q).num :=
        Int.toNat_of_nonneg (Rat.num_nonneg.mpr hneg)
      have hdneg : (-q).den = 1 := by rw [Rat.neg_den, hd]
      have hcast2 : ((((-q).num.toNat : Nat) : Int) : ℚ) = (((-q).num : ℚ)) := by
        exact_mod_cast hnum
      have hq1 : (-q) = (((-q).num : ℚ)) := by
        conv_lhs => rw [← Rat.num_div_den (-q)]
        rw [hdneg]
        norm_num
      rw [hdneg, Nat.div_one, Int.cast_neg, hcast2, ← hq1]
      exact neg_neg q

/-- Python's `int(q) == q` fails exactly for non-integral rationals. -/
theorem is_int_q_false_iff (q : ℚ) : is_int_q q = false ↔ q.den ≠ 1 := by
  constructor
  · intro hf hd
    have ht := (is_int_q_iff q).mpr hd
    rw [ht] at hf
    exact Bool.noConfusion hf
  · intro hne
    cases h : is_int_q q
    · rfl
    · exact absurd ((is_int_q_iff q).mp h) hne

/-- C9: whenever the merged configuration's `first_label` is not an
integer, is below 1, or exceeds `horiz_num_labels · vert_num_labels`,
the label-making path of `main` exits with status 1 without producing
any output (`Except.error 1` carries no output tokens) — `make_labels`
is never reached. -/
theorem c9_first_label_gate (s : SheetSpec) (delim : Option (List Char))
    (leading minL : Nat) (input : List (List Char))
    (h : s.first_label.den ≠ 1 ∨ s.first_label < 1 ∨
         s.horiz_num_labels.getD 0 * s.vert_num_labels.getD 0 < s.first_label) :
    main_run s delim leading minL input = Except.error 1 := by
  have hgate : main_config_error s = true := by
    unfold main_config_error
    simp only [Bool.or_eq_true, Bool.and_eq_true, decide_eq_true_eq, Bool.not_eq_true',
      decide_eq_false_iff_not]
    rcases h with h | h | h
    · have hfalse : is_int_q s.first_label = false := (is_int_q_false_iff _).mpr h
      tauto
    · tauto
    · by_cases h2 : s.first_label < 1
      · tauto
      · tauto
  unfold main_run
  rw [if_pos hgate]

/-- C9 witness: `first_label = 81` on the 80-per-page avery5167 grid is
rejected before any output. -/
theorem c9_first_label_gate_witness :
    (({ avery5167 with first_label := 81 } : SheetSpec).first_label.den ≠ 1 ∨
      ({ avery5167 with first_label := 81 } : SheetSpec).first_label < 1 ∨
      ({ avery5167 with first_label := 81 } : SheetSpec).horiz_num_labels.getD 0 *
          ({ avery5167 with first_label := 81 } : SheetSpec).vert_num_labels.getD 0
        < ({ avery5167 with first_label := 81 } : SheetSpec).first_label) ∧
    main_run { avery5167 with first_label := 81 } none 0 0 [] = Except.error 1 :=
  ⟨by with_unfolding_all decide,
   c9_first_label_gate { avery5167 with first_label := 81 } none 0 0 []
     (by with_unfolding_all decide)⟩

/-- C10: a parameter-file line that is neither blank nor a comment and
does not split into exactly two whitespace-separated tokens (here a
three-token `FontName Helvetica Bold` line) makes the loader raise an
unhandled exception that aborts the whole parse, whereas a line with an
unrecognized key (`Frobnicate 3`) is merely reported and skipped, leaving
the spec untouched. -/
theorem c10_param_line_exception :
    isCommentOrBlank ("FontName Helvetica Bold".data) = false ∧
    (pySplit ("FontName Helvetica Bold".data)).length = 3 ∧
    (parse_param_lines [("FontName Helvetica Bold".data)]).toOption = none ∧
    (parse_param_lines [("Frobnicate 3".data)]).toOption = some default_sheetspec ∧
    (parse_param_lines [("LeftMargin".data)]).toOption = none := by
  with_unfolding_all decide

/-- C3 (code bug): dumping the resolved avery5167 spec with
`--show-parameters` and reloading the dump through the parameter-file
loader does NOT reproduce the spec: `__str__` formats every numeric
field with `"%d"`, so `horiz_space = 22.5` is dumped as `22` and reloads
as `22 ≠ 22.5` (the program's own help text documents this dump as
printing `HorizSpace 22.5`). -/
theorem c3_roundtrip_dump_truncates :
    (parse_param_lines (sheetspec_dump avery5167)).toOption.map SheetSpec.horiz_space
      = some (some 22) ∧
    avery5167.horiz_space = some (45 / 2) ∧
    ((45 : ℚ) / 2 ≠ 22) ∧
    parse_param_lines (sheetspec_dump avery5167) ≠ Except.ok avery5167 := by
  have h1 : (parse_param_lines (sheetspec_dump avery5167)).toOption.map SheetSpec.horiz_space
      = some (some 22) := by
    with_unfolding_all decide
  have h3 : ((45 : ℚ) / 2) ≠ 22 := by with_unfolding_all decide
  refine ⟨h1, rfl, h3, ?_⟩
  intro hEq
  rw [hEq] at h1
  simp [Except.toOption] at h1
  exact h3 (Option.some.inj h1)
